import Mathlib

/-!
Verification of the JSON-backed document store of the Blogify repository
(src/instagram_blog.py).  The data model (User, Post, Comment, Document),
the mutation operations (toggle like, add comment, create post), the seeded
default data, and the JSON serialization used by `save_data` / `load_data`
are embedded as executable Lean definitions, and the documented properties
are proved or refuted about them.
-/

namespace Blogify

/-- A user record, as stored under `current_user` and in the `users` list of
`blog_data.json` (see `create_default_data` in src/instagram_blog.py). -/
structure User where
  user_id : Int
  username : String
  email : String
  bio : String
  created_at : String
deriving DecidableEq

/-- A comment record, owned by a post (`comments` entries in the JSON file). -/
structure Comment where
  user_id : Int
  username : String
  text : String
  created_at : String
deriving DecidableEq

/-- A post record, one element of the `posts` list of the document.
The liker ids (`liked_by`) are a Python list in the source and are embedded
as a Lean list; `likes` is the stored (denormalized) like count. -/
structure Post where
  post_id : Int
  user_id : Int
  username : String
  content : String
  image_path : Option String
  likes : Int
  liked_by : List Int
  comments : List Comment
  created_at : String
deriving DecidableEq

/-- A JSON value; `notifications` is an always-empty list in the source whose
elements are never inspected, so it is kept as raw JSON values. -/
inductive JValue where
  | null : JValue
  | num : Int → JValue
  | str : String → JValue
  | arr : List JValue → JValue
  | obj : List (String × JValue) → JValue

/-- The whole persisted application state, one unit (the keys of the
top-level JSON object written by `save_data`). -/
structure Document where
  current_user : User
  posts : List Post
  users : List User
  notifications : List JValue

/-- Update applied to the matched post by `PostCard._toggle_like`
(src/instagram_blog.py lines 295-304): if the user already likes the post,
remove the first occurrence of the id and decrement the count flooring at
zero (`max(0, likes - 1)`); otherwise append the id and increment. -/
def toggle_post (user_id : Int) (p : Post) : Post :=
  if user_id ∈ p.liked_by then
    { p with liked_by := p.liked_by.erase user_id, likes := max 0 (p.likes - 1) }
  else
    { p with liked_by := p.liked_by ++ [user_id], likes := p.likes + 1 }

/-- Loop of `PostCard._toggle_like` (lines 295-305): scan the posts in order,
transform the first post whose id matches, then stop (`break`); every other
post is left unchanged.  If no id matches the list is unchanged. -/
def toggle_like_posts (post_id user_id : Int) : List Post → List Post
  | [] => []
  | p :: ps =>
    if p.post_id = post_id then toggle_post user_id p :: ps
    else p :: toggle_like_posts post_id user_id ps

/-- Embedding of `PostCard._toggle_like` (src/instagram_blog.py lines
288-308), with the acting user id lifted to a parameter (the click handler
passes `data.current_user.user_id`).  Only `posts` is touched. -/
def toggle_like (d : Document) (post_id user_id : Int) : Document :=
  { d with posts := toggle_like_posts post_id user_id d.posts }

/-- Loop of `CommentsPopup._add_comment` (src/instagram_blog.py lines
557-568): append the new comment at the end of the comment list of the
first post whose id matches, then stop; no match leaves the list unchanged. -/
def add_comment_posts (post_id : Int) (c : Comment) : List Post → List Post
  | [] => []
  | p :: ps =>
    if p.post_id = post_id then { p with comments := p.comments ++ [c] } :: ps
    else p :: add_comment_posts post_id c ps

/-- Embedding of `CommentsPopup._add_comment` (src/instagram_blog.py lines
544-570), with the commenting user and the timestamp lifted to parameters
(the handler passes `data.current_user` fields and `datetime.now()`). -/
def add_comment (d : Document) (post_id user_id : Int)
    (username text now : String) : Document :=
  { d with posts := add_comment_posts post_id ⟨user_id, username, text, now⟩ d.posts }

/-- Python `max([p['post_id'] for p in data['posts']], default=0)`
(src/instagram_blog.py line 430): the greatest post id, or 0 when the
document has no posts.  The `default` is used only for the empty list. -/
def max_post_id : List Post → Int
  | [] => 0
  | p :: ps => (ps.map Post.post_id).foldl max p.post_id

/-- The id allocated to a new post: `max(..., default=0) + 1` (line 430). -/
def next_post_id (d : Document) : Int :=
  max_post_id d.posts + 1

/-- Embedding of `AddPostPopup._create_post` (src/instagram_blog.py lines
428-441): build the new post record and insert it at the head of the list
(`data['posts'].insert(0, new_post)`).  The author id and username are
lifted to parameters (the handler passes `data.current_user` fields), as is
the timestamp and the stored image path. -/
def create_post (d : Document) (user_id : Int) (username content : String)
    (image_path : Option String) (now : String) : Document :=
  { d with posts :=
      { post_id := next_post_id d
        user_id := user_id
        username := username
        content := content
        image_path := image_path
        likes := 0
        liked_by := []
        comments := []
        created_at := now } :: d.posts }

/-- Inputs of one `create_post` call, for reasoning about call sequences. -/
structure PostInput where
  user_id : Int
  username : String
  content : String
  image_path : Option String
  now : String

/-- Fold a sequence of `create_post` calls over a document, first input first. -/
def apply_creates (d : Document) : List PostInput → Document
  | [] => d
  | i :: is => apply_creates (create_post d i.user_id i.username i.content i.image_path i.now) is

/-- The post ids allocated by a sequence of `create_post` calls, in call order. -/
def allocated_ids (d : Document) : List PostInput → List Int
  | [] => []
  | i :: is =>
    next_post_id d ::
      allocated_ids (create_post d i.user_id i.username i.content i.image_path i.now) is

/-- The seeded sample document built by `create_default_data`
(src/instagram_blog.py lines 69-134): one user, three sample posts with
pre-set like counts 42, 28, 35, empty liker lists, sample comments, and an
empty notification list.  All `datetime.now()` stamps are the parameter. -/
def default_document (now : String) : Document :=
  { current_user :=
      { user_id := 1
        username := "harini"
        email := "harini@example.com"
        bio := "Welcome to my blog! ✨ Sharing moments and thoughts."
        created_at := now }
    posts :=
      [ { post_id := 1
          user_id := 1
          username := "harini"
          content := "Beautiful sunset at the beach! 🌅 #sunset #beach #nature"
          image_path := none
          likes := 42
          liked_by := []
          comments :=
            [ ⟨2, "friend1", "Amazing shot!", now⟩,
              ⟨3, "friend2", "Love this! ❤️", now⟩ ]
          created_at := now },
        { post_id := 2
          user_id := 1
          username := "harini"
          content := "Coffee and coding ☕💻 Perfect morning vibes!"
          image_path := none
          likes := 28
          liked_by := []
          comments := [ ⟨2, "friend1", "Same here!", now⟩ ]
          created_at := now },
        { post_id := 3
          user_id := 1
          username := "harini"
          content := "New project coming soon! Stay tuned 🚀 #coding #project"
          image_path := none
          likes := 35
          liked_by := []
          comments := []
          created_at := now } ]
    users :=
      [ { user_id := 1
          username := "harini"
          email := "harini@example.com"
          bio := "Welcome to my blog! ✨ Sharing moments and thoughts."
          created_at := now } ]
    notifications := [] }

/-! JSON text.  `save_data` writes the document with `json.dump(data, f,
indent=2, ensure_ascii=False)` and `load_data` reads it back with
`json.load` (src/instagram_blog.py lines 59-67 and 138-144).  The
serializer below emits the same token stream without the insignificant
indentation whitespace (which `json.load` skips and which carries no
information), using the standard JSON escapes that `json.dumps` produces
for string data (`ensure_ascii=False` passes other characters through). -/

/-- An opening curly brace character (written via its code point). -/
def lbrace : Char := Char.ofNat 123

/-- A closing curly brace character (written via its code point). -/
def rbrace : Char := Char.ofNat 125

/-- The decimal digit character for a value below ten. -/
def digitChar : Nat → Char
  | 0 => '0' | 1 => '1' | 2 => '2' | 3 => '3' | 4 => '4'
  | 5 => '5' | 6 => '6' | 7 => '7' | 8 => '8' | _ => '9'

/-- Numeric value of a decimal digit character. -/
def digitVal (c : Char) : Nat := c.toNat - 48

/-- Decimal digit characters of a natural number, most significant first. -/
def natDigits (n : Nat) : List Char :=
  if n = 0 then ['0'] else ((Nat.digits 10 n).map digitChar).reverse

/-- Value of a list of decimal digit characters, most significant first. -/
def natFromDigits (ds : List Char) : Nat :=
  ds.foldl (fun a c => 10 * a + digitVal c) 0

/-- Decimal rendering of an integer, as `json.dump` prints Python ints. -/
def serializeInt (i : Int) : List Char :=
  if i < 0 then '-' :: natDigits i.natAbs else natDigits i.natAbs

/-- The lowercase hexadecimal digit character for a value below sixteen. -/
def hexDigit : Nat → Char
  | 0 => '0' | 1 => '1' | 2 => '2' | 3 => '3' | 4 => '4'
  | 5 => '5' | 6 => '6' | 7 => '7' | 8 => '8' | 9 => '9'
  | 10 => 'a' | 11 => 'b' | 12 => 'c' | 13 => 'd' | 14 => 'e' | _ => 'f'

/-- JSON escape of one string character, as `json.dumps` emits it with
`ensure_ascii=False`: quote and backslash get a backslash escape, the named
control characters use their short escapes, remaining control characters
use a `\u00XX` escape, and every other character passes through. -/
def escapeChar (c : Char) : List Char :=
  if c = '"' then ['\\', '"']
  else if c = '\\' then ['\\', '\\']
  else if c = '\n' then ['\\', 'n']
  else if c = '\t' then ['\\', 't']
  else if c = '\r' then ['\\', 'r']
  else if c.toNat = 8 then ['\\', 'b']
  else if c.toNat = 12 then ['\\', 'f']
  else if c.toNat < 32 then
    ['\\', 'u', '0', '0', hexDigit (c.toNat / 16), hexDigit (c.toNat % 16)]
  else [c]

/-- JSON rendering of a string: quote, escaped characters, quote. -/
def serializeString (s : String) : List Char :=
  '"' :: (s.data.flatMap escapeChar ++ ['"'])

mutual

/-- JSON rendering of a value (no insignificant whitespace). -/
def serializeValue : JValue → List Char
  | .null => ['n', 'u', 'l', 'l']
  | .num i => serializeInt i
  | .str s => serializeString s
  | .arr l => '[' :: serializeElems l
  | .obj m => lbrace :: serializeMembers m

/-- JSON rendering of array elements after the opening bracket, including
the separating commas and the closing bracket. -/
def serializeElems : List JValue → List Char
  | [] => [']']
  | [v] => serializeValue v ++ [']']
  | v :: vs => serializeValue v ++ ',' :: serializeElems vs

/-- JSON rendering of object members after the opening brace, including
the key strings, colons, commas and the closing brace. -/
def serializeMembers : List (String × JValue) → List Char
  | [] => [rbrace]
  | [(k, v)] => serializeString k ++ ':' :: (serializeValue v ++ [rbrace])
  | (k, v) :: ms => serializeString k ++ ':' :: (serializeValue v ++ ',' :: serializeMembers ms)

end

mutual

/-- Recursion budget a parser run needs for a value: one unit per value
plus one per container element step. -/
def jweightV : JValue → Nat
  | .null => 1
  | .num _ => 1
  | .str _ => 1
  | .arr l => 1 + jweightL l
  | .obj m => 1 + jweightM m

/-- Recursion budget for a list of array elements. -/
def jweightL : List JValue → Nat
  | [] => 0
  | v :: vs => 1 + jweightV v + jweightL vs

/-- Recursion budget for a list of object members. -/
def jweightM : List (String × JValue) → Nat
  | [] => 0
  | (_, v) :: ms => 1 + jweightV v + jweightM ms

end

/-- Numeric value of a hexadecimal digit character, if it is one. -/
def hexVal (c : Char) : Option Nat :=
  if c.isDigit then some (c.toNat - 48)
  else if 97 ≤ c.toNat ∧ c.toNat ≤ 102 then some (c.toNat - 87)
  else if 65 ≤ c.toNat ∧ c.toNat ≤ 70 then some (c.toNat - 55)
  else none

/-- Character named by a short JSON escape. -/
def unescape (e : Char) : Option Char :=
  if e = '"' then some '"'
  else if e = '\\' then some '\\'
  else if e = '/' then some '/'
  else if e = 'n' then some '\n'
  else if e = 't' then some '\t'
  else if e = 'r' then some '\r'
  else if e = 'b' then some (Char.ofNat 8)
  else if e = 'f' then some (Char.ofNat 12)
  else none

/-- Parse the body of a JSON string after the opening quote, returning the
decoded characters and the input after the closing quote. -/
def parseStringAux : List Char → Option (List Char × List Char)
  | [] => none
  | c :: cs =>
    if c = '"' then some ([], cs)
    else if c = '\\' then
      match cs with
      | [] => none
      | e :: cs' =>
        if e = 'u' then
          match cs' with
          | a :: b :: x :: y :: r =>
            match hexVal a, hexVal b, hexVal x, hexVal y with
            | some ha, some hb, some hx, some hy =>
              (parseStringAux r).map fun p =>
                (Char.ofNat (((ha * 16 + hb) * 16 + hx) * 16 + hy) :: p.1, p.2)
            | _, _, _, _ => none
          | _ => none
        else
          match unescape e with
          | some u => (parseStringAux cs').map fun p => (u :: p.1, p.2)
          | none => none
    else (parseStringAux cs).map fun p => (c :: p.1, p.2)

/-- Split the longest leading run of decimal digit characters. -/
def takeDigits : List Char → List Char × List Char
  | [] => ([], [])
  | c :: cs =>
    if c.isDigit then
      let p := takeDigits cs
      (c :: p.1, p.2)
    else ([], c :: cs)

/-- Parse a JSON integer (an optional minus sign and digits). -/
def parseNumber (cs : List Char) : Option (Int × List Char) :=
  match cs with
  | [] => none
  | c :: cs' =>
    if c = '-' then
      let p := takeDigits cs'
      if p.1 = [] then none else some (-(natFromDigits p.1 : Int), p.2)
    else
      let p := takeDigits (c :: cs')
      if p.1 = [] then none else some ((natFromDigits p.1 : Int), p.2)

mutual

/-- Parse one JSON value with a recursion budget, returning it and the
remaining input. -/
def parseValue : Nat → List Char → Option (JValue × List Char)
  | 0, _ => none
  | _ + 1, [] => none
  | f + 1, c :: cs =>
    if c = 'n' then
      if cs.take 3 = ['u', 'l', 'l'] then some (.null, cs.drop 3) else none
    else if c = '"' then
      (parseStringAux cs).map fun p => (.str (String.mk p.1), p.2)
    else if c = '[' then
      if cs.head? = some ']' then some (.arr [], cs.tail)
      else (parseElems f cs).map fun p => (.arr p.1, p.2)
    else if c = lbrace then
      if cs.head? = some rbrace then some (.obj [], cs.tail)
      else (parseMembers f cs).map fun p => (.obj p.1, p.2)
    else (parseNumber (c :: cs)).map fun p => (.num p.1, p.2)

/-- Parse the elements of a nonempty JSON array after the opening bracket,
consuming the closing bracket. -/
def parseElems : Nat → List Char → Option (List JValue × List Char)
  | 0, _ => none
  | f + 1, cs =>
    match parseValue f cs with
    | none => none
    | some (v, r) =>
      match r with
      | [] => none
      | c :: r' =>
        if c = ',' then (parseElems f r').map fun p => (v :: p.1, p.2)
        else if c = ']' then some ([v], r')
        else none

/-- Parse the members of a nonempty JSON object after the opening brace,
consuming the closing brace. -/
def parseMembers : Nat → List Char → Option (List (String × JValue) × List Char)
  | 0, _ => none
  | f + 1, cs =>
    match cs with
    | [] => none
    | c :: cs' =>
      if c = '"' then
        match parseStringAux cs' with
        | none => none
        | some (k, r) =>
          match r with
          | [] => none
          | c2 :: r' =>
            if c2 = ':' then
              match parseValue f r' with
              | none => none
              | some (v, r2) =>
                match r2 with
                | [] => none
                | c3 :: r3 =>
                  if c3 = ',' then
                    (parseMembers f r3).map fun p => ((String.mk k, v) :: p.1, p.2)
                  else if c3 = rbrace then some ([(String.mk k, v)], r3)
                  else none
            else none
      else none

end

/-! JSON shape of the document.  `save_data` serializes the Python dicts
directly; Python dicts keep insertion order, so the key order below is the
order in which `create_default_data` and `AddPostPopup._create_post` build
the records (identical in both), which is what `json.dump` writes. -/

/-- JSON object for a user record. -/
def encodeUser (u : User) : JValue :=
  .obj [("user_id", .num u.user_id), ("username", .str u.username),
        ("email", .str u.email), ("bio", .str u.bio),
        ("created_at", .str u.created_at)]

/-- JSON object for a comment record. -/
def encodeComment (c : Comment) : JValue :=
  .obj [("user_id", .num c.user_id), ("username", .str c.username),
        ("text", .str c.text), ("created_at", .str c.created_at)]

/-- JSON value for an optional image path (`None` becomes `null`). -/
def encodeOptStr : Option String → JValue
  | none => .null
  | some s => .str s

/-- JSON object for a post record. -/
def encodePost (p : Post) : JValue :=
  .obj [("post_id", .num p.post_id), ("user_id", .num p.user_id),
        ("username", .str p.username), ("content", .str p.content),
        ("image_path", encodeOptStr p.image_path), ("likes", .num p.likes),
        ("liked_by", .arr (p.liked_by.map JValue.num)),
        ("comments", .arr (p.comments.map encodeComment)),
        ("created_at", .str p.created_at)]

/-- JSON object for the whole document. -/
def encodeDocument (d : Document) : JValue :=
  .obj [("current_user", encodeUser d.current_user),
        ("posts", .arr (d.posts.map encodePost)),
        ("users", .arr (d.users.map encodeUser)),
        ("notifications", .arr d.notifications)]

/-- Read a user record back from its JSON object. -/
def decodeUser : JValue → Option User
  | .obj [("user_id", .num i), ("username", .str un), ("email", .str em),
          ("bio", .str b), ("created_at", .str c)] =>
    some ⟨i, un, em, b, c⟩
  | _ => none

/-- Read a comment record back from its JSON object. -/
def decodeComment : JValue → Option Comment
  | .obj [("user_id", .num i), ("username", .str un), ("text", .str t),
          ("created_at", .str c)] =>
    some ⟨i, un, t, c⟩
  | _ => none

/-- Read an optional string back (`null` or a string). -/
def decodeOptStr : JValue → Option (Option String)
  | .null => some none
  | .str s => some (some s)
  | _ => none

/-- Read a list of liker ids back from JSON values. -/
def decodeIntList : List JValue → Option (List Int)
  | [] => some []
  | .num i :: rest => (decodeIntList rest).map fun l => i :: l
  | _ => none

/-- Read a comment list back from JSON values. -/
def decodeComments : List JValue → Option (List Comment)
  | [] => some []
  | j :: rest =>
    match decodeComment j, decodeComments rest with
    | some c, some cs => some (c :: cs)
    | _, _ => none

/-- Read a post record back from its JSON object. -/
def decodePost : JValue → Option Post
  | .obj [("post_id", .num pid), ("user_id", .num uid), ("username", .str un),
          ("content", .str ct), ("image_path", ip), ("likes", .num lk),
          ("liked_by", .arr lb), ("comments", .arr cm),
          ("created_at", .str ca)] =>
    match decodeOptStr ip, decodeIntList lb, decodeComments cm with
    | some ip', some lb', some cm' => some ⟨pid, uid, un, ct, ip', lk, lb', cm', ca⟩
    | _, _, _ => none
  | _ => none

/-- Read a post list back from JSON values. -/
def decodePosts : List JValue → Option (List Post)
  | [] => some []
  | j :: rest =>
    match decodePost j, decodePosts rest with
    | some p, some ps => some (p :: ps)
    | _, _ => none

/-- Read a user list back from JSON values. -/
def decodeUsers : List JValue → Option (List User)
  | [] => some []
  | j :: rest =>
    match decodeUser j, decodeUsers rest with
    | some u, some us => some (u :: us)
    | _, _ => none

/-- Read a whole document back from its JSON object. -/
def decodeDocument : JValue → Option Document
  | .obj [("current_user", cu), ("posts", .arr ps), ("users", .arr us),
          ("notifications", .arr ns)] =>
    match decodeUser cu, decodePosts ps, decodeUsers us with
    | some u, some ps', some us' => some ⟨u, ps', us', ns⟩
    | _, _, _ => none
  | _ => none

/-- The text `save_data` writes for a document. -/
def serialize_document (d : Document) : List Char :=
  serializeValue (encodeDocument d)

/-- Reading the backing file text as a document: parse the JSON (rejecting
trailing data, as `json.load` does) and validate the document shape. -/
def parse_document (cs : List Char) : Option Document :=
  match parseValue (cs.length + 1) cs with
  | some (v, []) => decodeDocument v
  | _ => none

/-! File-level operations.  The backing store is modelled as
`Option (List Char)`: `none` when `blog_data.json` does not exist, and the
file text otherwise. -/

/-- Outcome of the file write attempted by `save_data`: it succeeds, or the
`open` call itself raises (permission denied: the file is untouched), or
the write raises after `k` characters reached the file (disk full; note
that `open(DATA_FILE, 'w')` has already truncated the file). -/
inductive WriteOutcome where
  | success : WriteOutcome
  | failAtOpen : WriteOutcome
  | failAfter : Nat → WriteOutcome

/-- Result of `save_data`: the file state afterwards, and whether the
`except` branch showed its error dialog (the exception is not re-raised). -/
structure SaveResult where
  file : Option (List Char)
  errorShown : Bool
deriving DecidableEq

/-- Embedding of `save_data` (src/instagram_blog.py lines 138-144):
`open(DATA_FILE, 'w')` truncates the file, `json.dump` writes the
serialization; any exception is caught and reported via a message box. -/
def save_data (d : Document) (fs : Option (List Char)) : WriteOutcome → SaveResult
  | .success => ⟨some (serialize_document d), false⟩
  | .failAtOpen => ⟨fs, true⟩
  | .failAfter k => ⟨some ((serialize_document d).take k), true⟩

/-- Embedding of `create_default_data` (src/instagram_blog.py lines
69-136): build the seeded document, persist it with `save_data` (write
assumed to succeed), and return it. -/
def create_default_data (now : String) : Document × Option (List Char) :=
  (default_document now, some (serialize_document (default_document now)))

/-- Embedding of `load_data` (src/instagram_blog.py lines 51-67): if the
file exists, parse it, and on any parsing error fall back to
`create_default_data`; if the file does not exist, `create_default_data`.
Returns the document together with the resulting file state. -/
def load_data (now : String) (fs : Option (List Char)) : Document × Option (List Char) :=
  match fs with
  | some content =>
    match parse_document content with
    | some d => (d, some content)
    | none => create_default_data now
  | none => create_default_data now

/-! Round-trip facts about numbers. -/

/-- A residual input whose first character is not a digit, so that a number
parse just before it stops exactly at its start. -/
def safeRest (l : List Char) : Prop :=
  ∀ c, l.head? = some c → c.isDigit = false

theorem safeRest_nil : safeRest [] := by
  intro c h
  simp at h

theorem safeRest_cons {c : Char} (h : c.isDigit = false) (l : List Char) :
    safeRest (c :: l) := by
  intro x hx
  simp at hx
  exact hx ▸ h

theorem digitVal_digitChar {d : Nat} (h : d < 10) : digitVal (digitChar d) = d := by
  interval_cases d <;> rfl

theorem isDigit_digitChar {d : Nat} (h : d < 10) : (digitChar d).isDigit = true := by
  interval_cases d <;> rfl

theorem natDigits_ne_nil (n : Nat) : natDigits n ≠ [] := by
  unfold natDigits
  split
  · simp
  · simp [Nat.digits_ne_nil_iff_ne_zero, *]

theorem natDigits_isDigit (n : Nat) : ∀ c ∈ natDigits n, c.isDigit = true := by
  intro c hc
  unfold natDigits at hc
  split at hc
  · simp at hc
    exact hc ▸ rfl
  · simp at hc
    obtain ⟨d, hd, rfl⟩ := hc
    exact isDigit_digitChar (Nat.digits_lt_base (by norm_num) hd)

theorem foldr_digits_eq_ofDigits (ds : List Nat) (h : ∀ d ∈ ds, d < 10) :
    (ds.map digitChar).foldr (fun c a => 10 * a + digitVal c) 0 = Nat.ofDigits 10 ds := by
  induction ds with
  | nil => simp [Nat.ofDigits]
  | cons d ds ih =>
    simp only [List.map_cons, List.foldr_cons, Nat.ofDigits_cons]
    rw [ih (fun x hx => h x (List.mem_cons_of_mem _ hx)),
      digitVal_digitChar (h d (List.mem_cons_self _ _))]
    ring

theorem natFromDigits_natDigits (n : Nat) : natFromDigits (natDigits n) = n := by
  unfold natFromDigits natDigits
  split
  · subst n
    rfl
  · rw [List.foldl_reverse]
    rw [foldr_digits_eq_ofDigits (Nat.digits 10 n)
      (fun d hd => Nat.digits_lt_base (by norm_num) hd), Nat.ofDigits_digits]

theorem takeDigits_append (ds rest : List Char) (hds : ∀ c ∈ ds, c.isDigit = true)
    (hrest : safeRest rest) : takeDigits (ds ++ rest) = (ds, rest) := by
  induction ds with
  | nil =>
    simp only [List.nil_append]
    cases rest with
    | nil => rfl
    | cons c t =>
      have := hrest c (by rfl)
      simp [takeDigits, this]
  | cons c ds ih =>
    have hc := hds c (List.mem_cons_self _ _)
    simp [takeDigits, hc, ih (fun x hx => hds x (List.mem_cons_of_mem _ hx))]

theorem parseNumber_serializeInt (i : Int) (rest : List Char) (hrest : safeRest rest) :
    parseNumber (serializeInt i ++ rest) = some (i, rest) := by
  have hdig := takeDigits_append (natDigits i.natAbs) rest (natDigits_isDigit _) hrest
  have hne := natDigits_ne_nil i.natAbs
  have hval := natFromDigits_natDigits i.natAbs
  unfold serializeInt
  split
  · next hneg =>
    simp only [List.cons_append, parseNumber, hdig]
    simp [hne, hval, abs_of_neg hneg]
  · next hpos =>
    obtain ⟨c, cs, hcons⟩ : ∃ c cs, natDigits i.natAbs = c :: cs := by
      cases h : natDigits i.natAbs with
      | nil => exact absurd h hne
      | cons c cs => exact ⟨c, cs, rfl⟩
    have hcd : c.isDigit = true := natDigits_isDigit _ c (by rw [hcons]; exact List.mem_cons_self _ _)
    have hcm : ¬(c = '-') := by
      intro h
      rw [h] at hcd
      simp at hcd
    rw [hcons, List.cons_append]
    simp only [parseNumber]
    rw [if_neg hcm]
    rw [show c :: (cs ++ rest) = (c :: cs) ++ rest from rfl, ← hcons]
    simp [hdig, hne, hval]
    omega

/-! Round-trip facts about strings. -/

theorem hexVal_hexDigit {n : Nat} (h : n < 16) : hexVal (hexDigit n) = some n := by
  interval_cases n <;> decide

theorem parseStringAux_unicode (n : Nat) (hn : n < 256) (t : List Char) :
    parseStringAux ('\\' :: 'u' :: '0' :: '0' :: hexDigit (n / 16) :: hexDigit (n % 16) :: t)
      = (parseStringAux t).map fun p => (Char.ofNat n :: p.1, p.2) := by
  rw [parseStringAux.eq_def]
  simp [hexVal_hexDigit (show n / 16 < 16 by omega), hexVal_hexDigit (show n % 16 < 16 by omega),
    (by decide : hexVal '0' = some 0)]
  rw [show n / 16 * 16 + n % 16 = n from by omega]

theorem parseStringAux_escapeChar (c : Char) (t : List Char) :
    parseStringAux (escapeChar c ++ t) = (parseStringAux t).map fun p => (c :: p.1, p.2) := by
  by_cases h1 : c = '"'
  · subst h1
    rw [show escapeChar '"' ++ t = '\\' :: '"' :: t from by simp [escapeChar]]
    rw [parseStringAux.eq_def]
    simp [unescape]
  by_cases h2 : c = '\\'
  · subst h2
    rw [show escapeChar '\\' ++ t = '\\' :: '\\' :: t from by simp [escapeChar]]
    rw [parseStringAux.eq_def]
    simp [unescape]
  by_cases h3 : c = '\n'
  · subst h3
    rw [show escapeChar '\n' ++ t = '\\' :: 'n' :: t from by simp [escapeChar]]
    rw [parseStringAux.eq_def]
    simp [unescape]
  by_cases h4 : c = '\t'
  · subst h4
    rw [show escapeChar '\t' ++ t = '\\' :: 't' :: t from by simp [escapeChar]]
    rw [parseStringAux.eq_def]
    simp [unescape]
  by_cases h5 : c = '\r'
  · subst h5
    rw [show escapeChar '\r' ++ t = '\\' :: 'r' :: t from by simp [escapeChar]]
    rw [parseStringAux.eq_def]
    simp [unescape]
  by_cases h6 : c.toNat = 8
  · have hc : c = Char.ofNat 8 := by rw [← h6, Char.ofNat_toNat]
    subst hc
    rw [show escapeChar (Char.ofNat 8) ++ t = '\\' :: 'b' :: t from by simp [escapeChar]]
    rw [parseStringAux.eq_def]
    simp [unescape]
  by_cases h7 : c.toNat = 12
  · have hc : c = Char.ofNat 12 := by rw [← h7, Char.ofNat_toNat]
    subst hc
    rw [show escapeChar (Char.ofNat 12) ++ t = '\\' :: 'f' :: t from by simp [escapeChar]]
    rw [parseStringAux.eq_def]
    simp [unescape]
  by_cases h8 : c.toNat < 32
  · have hesc : escapeChar c =
        ['\\', 'u', '0', '0', hexDigit (c.toNat / 16), hexDigit (c.toNat % 16)] := by
      unfold escapeChar
      rw [if_neg h1, if_neg h2, if_neg h3, if_neg h4, if_neg h5, if_neg h6, if_neg h7, if_pos h8]
    rw [hesc]
    simp only [List.cons_append, List.nil_append]
    rw [parseStringAux_unicode c.toNat (by omega), Char.ofNat_toNat]
  · have hesc : escapeChar c = [c] := by
      unfold escapeChar
      rw [if_neg h1, if_neg h2, if_neg h3, if_neg h4, if_neg h5, if_neg h6, if_neg h7, if_neg h8]
    rw [hesc]
    simp only [List.cons_append, List.nil_append]
    rw [parseStringAux.eq_def]
    simp [h1, h2]

theorem parseStringAux_escaped (l rest : List Char) :
    parseStringAux (l.flatMap escapeChar ++ ('"' :: rest)) = some (l, rest) := by
  induction l with
  | nil =>
    simp only [List.flatMap_nil, List.nil_append]
    rw [parseStringAux.eq_def]
    simp
  | cons c l ih =>
    rw [List.flatMap_cons, List.append_assoc, parseStringAux_escapeChar, ih]
    rfl

/-! Head characters of serialized values, used to steer the parser. -/

theorem serializeInt_head (i : Int) :
    ∃ c cs, serializeInt i = c :: cs ∧ (c = '-' ∨ c.isDigit = true) := by
  unfold serializeInt
  split
  · exact ⟨'-', _, rfl, Or.inl rfl⟩
  · cases h : natDigits i.natAbs with
    | nil => exact absurd h (natDigits_ne_nil _)
    | cons c cs =>
      exact ⟨c, cs, rfl, Or.inr (natDigits_isDigit _ c (h ▸ List.mem_cons_self _ _))⟩

theorem serializeValue_head (v : JValue) :
    ∃ c cs, serializeValue v = c :: cs ∧
      (c = 'n' ∨ c = '-' ∨ c.isDigit = true ∨ c = '"' ∨ c = '[' ∨ c = lbrace) := by
  cases v with
  | null => exact ⟨'n', _, rfl, Or.inl rfl⟩
  | num i =>
    obtain ⟨c, cs, hc, hp⟩ := serializeInt_head i
    exact ⟨c, cs, hc, Or.inr (by tauto)⟩
  | str s => exact ⟨'"', _, rfl, by tauto⟩
  | arr l => exact ⟨'[', _, rfl, by tauto⟩
  | obj m => exact ⟨lbrace, _, rfl, by tauto⟩

theorem head_ne_rbracket {c : Char}
    (h : c = 'n' ∨ c = '-' ∨ c.isDigit = true ∨ c = '"' ∨ c = '[' ∨ c = lbrace) :
    ¬(c = ']') := by
  intro hc
  subst hc
  rcases h with h | h | h | h | h | h <;> revert h <;> decide

theorem num_head_route {c : Char} (h : c = '-' ∨ c.isDigit = true) :
    ¬(c = 'n') ∧ ¬(c = '"') ∧ ¬(c = '[') ∧ ¬(c = lbrace) := by
  rcases h with rfl | h
  · exact ⟨by decide, by decide, by decide, by decide⟩
  · refine ⟨?_, ?_, ?_, ?_⟩ <;> intro hc <;> subst hc <;> revert h <;> decide

theorem serializeElems_cons_eq (v : JValue) (vs : List JValue) :
    ∃ tail, serializeElems (v :: vs) = serializeValue v ++ tail := by
  cases vs with
  | nil => exact ⟨[']'], rfl⟩
  | cons w ws => exact ⟨',' :: serializeElems (w :: ws), rfl⟩

theorem serializeMembers_cons_eq (k : String) (v : JValue) (ms : List (String × JValue)) :
    ∃ tail, serializeMembers ((k, v) :: ms) = '"' :: tail := by
  cases ms with
  | nil => exact ⟨(k.data.flatMap escapeChar ++ ['"']) ++ ':' :: (serializeValue v ++ [rbrace]), rfl⟩
  | cons m ms =>
    exact ⟨(k.data.flatMap escapeChar ++ ['"']) ++
      ':' :: (serializeValue v ++ ',' :: serializeMembers (m :: ms)), rfl⟩

/-! The parser reads back exactly what the serializer wrote. -/

theorem jweightV_pos (v : JValue) : 1 ≤ jweightV v := by
  cases v <;> simp [jweightV]

theorem parse_serialize_ind : ∀ n : Nat,
    (∀ v : JValue, jweightV v ≤ n → ∀ fuel rest, jweightV v ≤ fuel → safeRest rest →
      parseValue fuel (serializeValue v ++ rest) = some (v, rest)) ∧
    (∀ l : List JValue, l ≠ [] → jweightL l ≤ n → ∀ fuel rest, jweightL l ≤ fuel →
      parseElems fuel (serializeElems l ++ rest) = some (l, rest)) ∧
    (∀ m : List (String × JValue), m ≠ [] → jweightM m ≤ n → ∀ fuel rest, jweightM m ≤ fuel →
      parseMembers fuel (serializeMembers m ++ rest) = some (m, rest)) := by
  intro n
  induction n with
  | zero =>
    refine ⟨?_, ?_, ?_⟩
    · intro v hv
      have := jweightV_pos v
      omega
    · intro l hl hw
      cases l with
      | nil => exact absurd rfl hl
      | cons v vs => simp [jweightL] at hw
    · intro m hm hw
      cases m with
      | nil => exact absurd rfl hm
      | cons kv ms =>
        obtain ⟨k, v⟩ := kv
        simp [jweightM] at hw
  | succ n ih =>
    obtain ⟨ihV, ihL, ihM⟩ := ih
    refine ⟨?_, ?_, ?_⟩
    · intro v hv fuel rest hfuel hrest
      obtain ⟨f, rfl⟩ : ∃ f, fuel = f + 1 := ⟨fuel - 1, by have := jweightV_pos v; omega⟩
      cases v with
      | null =>
        rw [show serializeValue .null ++ rest = 'n' :: 'u' :: 'l' :: 'l' :: rest from rfl]
        rw [parseValue.eq_def]
        simp
      | num i =>
        obtain ⟨c, cs, hc, hp⟩ := serializeInt_head i
        obtain ⟨hn1, hn2, hn3, hn4⟩ := num_head_route hp
        rw [show serializeValue (.num i) = serializeInt i from rfl, hc, List.cons_append]
        rw [parseValue.eq_def]
        have hnum : parseNumber (c :: (cs ++ rest)) = some (i, rest) := by
          rw [show c :: (cs ++ rest) = (c :: cs) ++ rest from rfl, ← hc]
          exact parseNumber_serializeInt i rest hrest
        simp [hn1, hn2, hn3, hn4, hnum]
      | str s =>
        rw [show serializeValue (.str s) ++ rest
            = '"' :: (s.data.flatMap escapeChar ++ ('"' :: rest)) from by
          simp [serializeValue, serializeString]]
        rw [parseValue.eq_def]
        have hstr := parseStringAux_escaped s.data rest
        simp [hstr]
      | arr l =>
        cases l with
        | nil =>
          rw [show serializeValue (.arr []) ++ rest = '[' :: (']' :: rest) from rfl]
          rw [parseValue.eq_def]
          simp
        | cons v vs =>
          obtain ⟨tail, htail⟩ := serializeElems_cons_eq v vs
          obtain ⟨c, cs, hc, hp⟩ := serializeValue_head v
          have hcne : ¬(c = ']') := head_ne_rbracket hp
          simp only [jweightV] at hv hfuel
          have hhead : (serializeElems (v :: vs) ++ rest).head? = some c := by
            rw [htail, hc]
            simp
          have helems : parseElems f (serializeElems (v :: vs) ++ rest) = some (v :: vs, rest) :=
            ihL (v :: vs) (by simp) (by omega) f rest (by omega)
          rw [show serializeValue (.arr (v :: vs)) ++ rest
              = '[' :: (serializeElems (v :: vs) ++ rest) from rfl]
          rw [parseValue.eq_def]
          simp [hhead, hcne, helems]
      | obj m =>
        cases m with
        | nil =>
          rw [show serializeValue (.obj []) ++ rest = lbrace :: (rbrace :: rest) from rfl]
          rw [parseValue.eq_def]
          simp [(by decide : ¬(lbrace = 'n')), (by decide : ¬(lbrace = '"')),
            (by decide : ¬(lbrace = '['))]
        | cons kv ms =>
          obtain ⟨k, v⟩ := kv
          obtain ⟨tail, htail⟩ := serializeMembers_cons_eq k v ms
          simp only [jweightV] at hv hfuel
          have hhead : (serializeMembers ((k, v) :: ms) ++ rest).head? = some '"' := by
            rw [htail]
            simp
          have hmem : parseMembers f (serializeMembers ((k, v) :: ms) ++ rest)
              = some ((k, v) :: ms, rest) :=
            ihM ((k, v) :: ms) (by simp) (by omega) f rest (by omega)
          rw [show serializeValue (.obj ((k, v) :: ms)) ++ rest
              = lbrace :: (serializeMembers ((k, v) :: ms) ++ rest) from rfl]
          rw [parseValue.eq_def]
          simp [hhead, hmem, (by decide : ¬(lbrace = 'n')), (by decide : ¬(lbrace = '"')),
            (by decide : ¬(lbrace = '[')), (by decide : ¬(('"' : Char) = rbrace))]
    · intro l hl hw fuel rest hfuel
      cases l with
      | nil => exact absurd rfl hl
      | cons v vs =>
        simp only [jweightL] at hw hfuel
        obtain ⟨f, rfl⟩ : ∃ f, fuel = f + 1 := ⟨fuel - 1, by omega⟩
        cases vs with
        | nil =>
          have hval : parseValue f (serializeValue v ++ (']' :: rest)) = some (v, ']' :: rest) :=
            ihV v (by omega) f (']' :: rest) (by omega) (safeRest_cons (by decide) rest)
          rw [show serializeElems [v] ++ rest = serializeValue v ++ (']' :: rest) from by
            simp [serializeElems]]
          rw [parseElems.eq_def]
          simp [hval]
        | cons w ws =>
          simp only [jweightL] at hw hfuel
          have hval : parseValue f (serializeValue v ++ (',' :: (serializeElems (w :: ws) ++ rest)))
              = some (v, ',' :: (serializeElems (w :: ws) ++ rest)) :=
            ihV v (by omega) f _ (by omega) (safeRest_cons (by decide) _)
          have hrec : parseElems f (serializeElems (w :: ws) ++ rest) = some (w :: ws, rest) :=
            ihL (w :: ws) (by simp) (by simp only [jweightL]; omega) f rest
              (by simp only [jweightL]; omega)
          rw [show serializeElems (v :: w :: ws) ++ rest
              = serializeValue v ++ (',' :: (serializeElems (w :: ws) ++ rest)) from by
            simp [serializeElems]]
          rw [parseElems.eq_def]
          simp [hval, hrec]
    · intro m hm hw fuel rest hfuel
      cases m with
      | nil => exact absurd rfl hm
      | cons kv ms =>
        obtain ⟨k, v⟩ := kv
        simp only [jweightM] at hw hfuel
        obtain ⟨f, rfl⟩ : ∃ f, fuel = f + 1 := ⟨fuel - 1, by omega⟩
        have hkey := parseStringAux_escaped k.data
        cases ms with
        | nil =>
          have hval : parseValue f (serializeValue v ++ (rbrace :: rest))
              = some (v, rbrace :: rest) :=
            ihV v (by omega) f (rbrace :: rest) (by omega) (safeRest_cons (by decide) rest)
          rw [show serializeMembers [(k, v)] ++ rest
              = '"' :: (k.data.flatMap escapeChar
                  ++ ('"' :: (':' :: (serializeValue v ++ (rbrace :: rest))))) from by
            simp [serializeMembers, serializeString]]
          rw [parseMembers.eq_def]
          simp [hkey, hval, (by decide : ¬(rbrace = ','))]
        | cons kv2 ms2 =>
          have hval : parseValue f
              (serializeValue v ++ (',' :: (serializeMembers (kv2 :: ms2) ++ rest)))
              = some (v, ',' :: (serializeMembers (kv2 :: ms2) ++ rest)) :=
            ihV v (by omega) f _ (by omega) (safeRest_cons (by decide) _)
          have hrec : parseMembers f (serializeMembers (kv2 :: ms2) ++ rest)
              = some (kv2 :: ms2, rest) :=
            ihM (kv2 :: ms2) (by simp) (by omega) f rest (by omega)
          rw [show serializeMembers ((k, v) :: kv2 :: ms2) ++ rest
              = '"' :: (k.data.flatMap escapeChar
                  ++ ('"' :: (':' :: (serializeValue v
                      ++ (',' :: (serializeMembers (kv2 :: ms2) ++ rest)))))) from by
            simp [serializeMembers, serializeString]]
          rw [parseMembers.eq_def]
          simp [hkey, hval, hrec]

theorem serializeInt_length_pos (i : Int) : 1 ≤ (serializeInt i).length := by
  obtain ⟨c, cs, hc, _⟩ := serializeInt_head i
  rw [hc]
  simp

theorem jweight_le_length : ∀ n : Nat,
    (∀ v : JValue, jweightV v ≤ n → jweightV v ≤ (serializeValue v).length) ∧
    (∀ l : List JValue, jweightL l ≤ n → jweightL l ≤ (serializeElems l).length) ∧
    (∀ m : List (String × JValue), jweightM m ≤ n → jweightM m ≤ (serializeMembers m).length) := by
  intro n
  induction n with
  | zero =>
    refine ⟨?_, ?_, ?_⟩
    · intro v hv
      have := jweightV_pos v
      omega
    · intro l hw
      cases l with
      | nil => simp [jweightL]
      | cons v vs =>
        have := jweightV_pos v
        simp [jweightL] at hw
    · intro m hw
      cases m with
      | nil => simp [jweightM]
      | cons kv ms =>
        obtain ⟨k, v⟩ := kv
        simp [jweightM] at hw
  | succ n ih =>
    obtain ⟨ihV, ihL, ihM⟩ := ih
    refine ⟨?_, ?_, ?_⟩
    · intro v hv
      cases v with
      | null => simp [jweightV, serializeValue]
      | num i =>
        have := serializeInt_length_pos i
        simp only [jweightV, serializeValue]
        omega
      | str s => simp [jweightV, serializeValue, serializeString]
      | arr l =>
        simp only [jweightV, serializeValue] at hv ⊢
        have := ihL l (by omega)
        simp only [List.length_cons]
        omega
      | obj m =>
        simp only [jweightV, serializeValue] at hv ⊢
        have := ihM m (by omega)
        simp only [List.length_cons]
        omega
    · intro l hw
      cases l with
      | nil => simp [jweightL]
      | cons v vs =>
        have hv := ihV v (by simp only [jweightL] at hw; omega)
        cases vs with
        | nil =>
          rw [show serializeElems [v] = serializeValue v ++ [']'] from rfl]
          simp only [jweightL, List.length_append, List.length_cons, List.length_nil]
          omega
        | cons w ws =>
          have hl := ihL (w :: ws) (by simp only [jweightL] at hw ⊢; omega)
          rw [show serializeElems (v :: w :: ws)
              = serializeValue v ++ ',' :: serializeElems (w :: ws) from rfl]
          simp only [jweightL] at hl ⊢
          simp only [List.length_append, List.length_cons]
          omega
    · intro m hw
      cases m with
      | nil => simp [jweightM]
      | cons kv ms =>
        obtain ⟨k, v⟩ := kv
        have hv := ihV v (by simp only [jweightM] at hw; omega)
        cases ms with
        | nil =>
          rw [show serializeMembers [(k, v)]
              = serializeString k ++ ':' :: (serializeValue v ++ [rbrace]) from rfl]
          simp only [jweightM, List.length_append, List.length_cons, List.length_nil]
          omega
        | cons kv2 ms2 =>
          obtain ⟨k2, v2⟩ := kv2
          have hm := ihM ((k2, v2) :: ms2) (by simp only [jweightM] at hw ⊢; omega)
          rw [show serializeMembers ((k, v) :: (k2, v2) :: ms2)
              = serializeString k ++ ':' :: (serializeValue v
                  ++ ',' :: serializeMembers ((k2, v2) :: ms2)) from rfl]
          simp only [jweightM] at hm ⊢
          simp only [List.length_append, List.length_cons]
          omega

theorem parseValue_serialize (v : JValue) (fuel : Nat) (h : jweightV v ≤ fuel) :
    parseValue fuel (serializeValue v) = some (v, []) := by
  have := (parse_serialize_ind (jweightV v)).1 v le_rfl fuel [] h safeRest_nil
  simpa using this

/-! Decoding undoes encoding for the typed document shape. -/

theorem decodeUser_encodeUser (u : User) : decodeUser (encodeUser u) = some u := rfl

theorem decodeComment_encodeComment (c : Comment) :
    decodeComment (encodeComment c) = some c := rfl

theorem decodeOptStr_encodeOptStr (o : Option String) :
    decodeOptStr (encodeOptStr o) = some o := by
  cases o <;> rfl

theorem decodeIntList_map (l : List Int) : decodeIntList (l.map JValue.num) = some l := by
  induction l with
  | nil => rfl
  | cons i l ih => simp [decodeIntList, ih]

theorem decodeComments_map (l : List Comment) :
    decodeComments (l.map encodeComment) = some l := by
  induction l with
  | nil => rfl
  | cons c l ih => simp [decodeComments, ih, decodeComment_encodeComment]

theorem decodePost_encodePost (p : Post) : decodePost (encodePost p) = some p := by
  simp [encodePost, decodePost, decodeOptStr_encodeOptStr, decodeIntList_map, decodeComments_map]

theorem decodePosts_map (l : List Post) : decodePosts (l.map encodePost) = some l := by
  induction l with
  | nil => rfl
  | cons p l ih => simp [decodePosts, ih, decodePost_encodePost]

theorem decodeUsers_map (l : List User) : decodeUsers (l.map encodeUser) = some l := by
  induction l with
  | nil => rfl
  | cons u l ih => simp [decodeUsers, ih, decodeUser_encodeUser]

theorem decodeDocument_encodeDocument (d : Document) :
    decodeDocument (encodeDocument d) = some d := by
  simp [encodeDocument, decodeDocument, decodeUser_encodeUser, decodePosts_map, decodeUsers_map]

/-- Reading back the exact text written for a document yields the document. -/
theorem parse_serialize_document (d : Document) :
    parse_document (serialize_document d) = some d := by
  unfold parse_document serialize_document
  have hw : jweightV (encodeDocument d) ≤ (serializeValue (encodeDocument d)).length + 1 := by
    have := (jweight_le_length (jweightV (encodeDocument d))).1 (encodeDocument d) le_rfl
    omega
  rw [parseValue_serialize _ _ hw]
  simp [decodeDocument_encodeDocument]

/-! Facts about the like toggle. -/

theorem toggle_post_post_id (u : Int) (p : Post) : (toggle_post u p).post_id = p.post_id := by
  unfold toggle_post
  split <;> rfl

theorem toggle_like_posts_none (pid uid : Int) (l : List Post)
    (h : ∀ p ∈ l, p.post_id ≠ pid) : toggle_like_posts pid uid l = l := by
  induction l with
  | nil => rfl
  | cons p ps ih =>
    simp only [toggle_like_posts]
    rw [if_neg (h p (List.mem_cons_self _ _)),
      ih (fun q hq => h q (List.mem_cons_of_mem _ hq))]

theorem toggle_like_posts_found (pid uid : Int) (l₁ : List Post) (p : Post) (l₂ : List Post)
    (h₁ : ∀ q ∈ l₁, q.post_id ≠ pid) (hp : p.post_id = pid) :
    toggle_like_posts pid uid (l₁ ++ p :: l₂) = l₁ ++ toggle_post uid p :: l₂ := by
  induction l₁ with
  | nil => simp [toggle_like_posts, hp]
  | cons q l₁ ih =>
    simp only [List.cons_append, toggle_like_posts, List.append_eq]
    rw [if_neg (h₁ q (List.mem_cons_self _ _)),
      ih (fun r hr => h₁ r (List.mem_cons_of_mem _ hr))]

/-- Toggling the same user twice restores the like count and the liker list
up to order, for a post with a duplicate-free liker list, a nonnegative like
count, and a positive like count whenever the user is already a liker. -/
theorem toggle_post_twice (u : Int) (p : Post) (hnd : p.liked_by.Nodup)
    (hpos : u ∈ p.liked_by → 1 ≤ p.likes) (hnn : 0 ≤ p.likes) :
    List.Perm (toggle_post u (toggle_post u p)).liked_by p.liked_by ∧
    { toggle_post u (toggle_post u p) with liked_by := p.liked_by } = p := by
  by_cases hmem : u ∈ p.liked_by
  · have h1 : toggle_post u p
        = { p with liked_by := p.liked_by.erase u, likes := max 0 (p.likes - 1) } := by
      unfold toggle_post
      rw [if_pos hmem]
    have hnot : u ∉ p.liked_by.erase u := fun hc =>
      (((List.Nodup.mem_erase_iff hnd).mp hc).1 rfl)
    have h2 : toggle_post u (toggle_post u p)
        = { p with liked_by := p.liked_by.erase u ++ [u], likes := max 0 (p.likes - 1) + 1 } := by
      rw [h1]
      unfold toggle_post
      rw [if_neg hnot]
    have hlikes : max 0 (p.likes - 1) + 1 = p.likes := by
      have := hpos hmem
      rw [max_eq_right (by omega)]
      omega
    rw [h2]
    constructor
    · exact (List.perm_append_singleton _ _).trans (List.perm_cons_erase hmem).symm
    · rw [hlikes]
  · have h1 : toggle_post u p
        = { p with liked_by := p.liked_by ++ [u], likes := p.likes + 1 } := by
      unfold toggle_post
      rw [if_neg hmem]
    have hmem2 : u ∈ p.liked_by ++ [u] := by simp
    have h2 : toggle_post u (toggle_post u p)
        = { p with liked_by := (p.liked_by ++ [u]).erase u, likes := max 0 (p.likes + 1 - 1) } := by
      rw [h1]
      unfold toggle_post
      rw [if_pos hmem2]
    have herase : (p.liked_by ++ [u]).erase u = p.liked_by := by
      rw [List.erase_append_right _ hmem]
      simp
    have hlikes : max 0 (p.likes + 1 - 1) = p.likes := by
      rw [show p.likes + 1 - 1 = p.likes from by ring, max_eq_right hnn]
    rw [h2, herase, hlikes]
    exact ⟨List.Perm.refl _, rfl⟩

theorem toggle_like_posts_twice (pid uid : Int) (l : List Post)
    (hnd : ∀ p ∈ l, p.liked_by.Nodup)
    (hpos : ∀ p ∈ l, uid ∈ p.liked_by → 1 ≤ p.likes)
    (hnn : ∀ p ∈ l, 0 ≤ p.likes) :
    List.Forall₂
      (fun q p => List.Perm q.liked_by p.liked_by ∧ { q with liked_by := p.liked_by } = p)
      (toggle_like_posts pid uid (toggle_like_posts pid uid l)) l := by
  induction l with
  | nil => constructor
  | cons p ps ih =>
    by_cases hp : p.post_id = pid
    · rw [show toggle_like_posts pid uid (p :: ps) = toggle_post uid p :: ps from by
        simp only [toggle_like_posts]
        rw [if_pos hp]]
      rw [show toggle_like_posts pid uid (toggle_post uid p :: ps)
          = toggle_post uid (toggle_post uid p) :: ps from by
        simp only [toggle_like_posts]
        rw [if_pos (by rw [toggle_post_post_id]; exact hp)]]
      refine List.Forall₂.cons ?_ ?_
      · exact toggle_post_twice uid p (hnd p (List.mem_cons_self _ _))
          (hpos p (List.mem_cons_self _ _)) (hnn p (List.mem_cons_self _ _))
      · exact List.forall₂_same.mpr (fun x _ => ⟨List.Perm.refl _, rfl⟩)
    · rw [show toggle_like_posts pid uid (p :: ps) = p :: toggle_like_posts pid uid ps from by
        simp only [toggle_like_posts]
        rw [if_neg hp]]
      rw [show toggle_like_posts pid uid (p :: toggle_like_posts pid uid ps)
          = p :: toggle_like_posts pid uid (toggle_like_posts pid uid ps) from by
        simp only [toggle_like_posts]
        rw [if_neg hp]]
      exact List.Forall₂.cons ⟨List.Perm.refl _, rfl⟩
        (ih (fun q hq => hnd q (List.mem_cons_of_mem _ hq))
          (fun q hq => hpos q (List.mem_cons_of_mem _ hq))
          (fun q hq => hnn q (List.mem_cons_of_mem _ hq)))

/-! The stored like count tracks the length of the liker list. -/

/-- Every post of the document stores a like count equal to the length of
its liker list. -/
def likes_inv (d : Document) : Prop :=
  ∀ p ∈ d.posts, p.likes = (p.liked_by.length : Int)

theorem toggle_post_inv (u : Int) (p : Post) (h : p.likes = (p.liked_by.length : Int)) :
    (toggle_post u p).likes = ((toggle_post u p).liked_by.length : Int) := by
  unfold toggle_post
  split
  · next hmem =>
    simp only
    have hlen : (p.liked_by.erase u).length = p.liked_by.length - 1 :=
      List.length_erase_of_mem hmem
    have hpos : 0 < p.liked_by.length := List.length_pos.mpr (List.ne_nil_of_mem hmem)
    rw [hlen, h, max_eq_right (by omega : (0 : Int) ≤ (p.liked_by.length : Int) - 1)]
    omega
  · next _ =>
    simp only [List.length_append, List.length_cons, List.length_nil]
    omega

theorem toggle_like_posts_inv (pid uid : Int) (l : List Post)
    (h : ∀ p ∈ l, p.likes = (p.liked_by.length : Int)) :
    ∀ p ∈ toggle_like_posts pid uid l, p.likes = (p.liked_by.length : Int) := by
  induction l with
  | nil => simp [toggle_like_posts]
  | cons q qs ih =>
    simp only [toggle_like_posts]
    split
    · intro p hp
      rcases List.mem_cons.mp hp with rfl | hmem
      · exact toggle_post_inv uid q (h q (List.mem_cons_self _ _))
      · exact h p (List.mem_cons_of_mem _ hmem)
    · intro p hp
      rcases List.mem_cons.mp hp with rfl | hmem
      · exact h p (List.mem_cons_self _ _)
      · exact ih (fun r hr => h r (List.mem_cons_of_mem _ hr)) p hmem

/-! Facts about comment insertion. -/

theorem add_comment_posts_none (pid : Int) (c : Comment) (l : List Post)
    (h : ∀ p ∈ l, p.post_id ≠ pid) : add_comment_posts pid c l = l := by
  induction l with
  | nil => rfl
  | cons p ps ih =>
    simp only [add_comment_posts]
    rw [if_neg (h p (List.mem_cons_self _ _)),
      ih (fun q hq => h q (List.mem_cons_of_mem _ hq))]

theorem add_comment_posts_found (pid : Int) (c : Comment) (l₁ : List Post) (p : Post)
    (l₂ : List Post) (h₁ : ∀ q ∈ l₁, q.post_id ≠ pid) (hp : p.post_id = pid) :
    add_comment_posts pid c (l₁ ++ p :: l₂)
      = l₁ ++ { p with comments := p.comments ++ [c] } :: l₂ := by
  induction l₁ with
  | nil => simp [add_comment_posts, hp]
  | cons q l₁ ih =>
    simp only [List.cons_append, add_comment_posts, List.append_eq]
    rw [if_neg (h₁ q (List.mem_cons_self _ _)),
      ih (fun r hr => h₁ r (List.mem_cons_of_mem _ hr))]

theorem add_comment_posts_inv (pid : Int) (c : Comment) (l : List Post)
    (h : ∀ p ∈ l, p.likes = (p.liked_by.length : Int)) :
    ∀ p ∈ add_comment_posts pid c l, p.likes = (p.liked_by.length : Int) := by
  induction l with
  | nil => simp [add_comment_posts]
  | cons q qs ih =>
    simp only [add_comment_posts]
    split
    · intro p hp
      rcases List.mem_cons.mp hp with rfl | hmem
      · exact h q (List.mem_cons_self _ _)
      · exact h p (List.mem_cons_of_mem _ hmem)
    · intro p hp
      rcases List.mem_cons.mp hp with rfl | hmem
      · exact h p (List.mem_cons_self _ _)
      · exact ih (fun r hr => h r (List.mem_cons_of_mem _ hr)) p hmem

/-! Facts about post id allocation. -/

theorem foldl_max_init_le (xs : List Int) (a : Int) : a ≤ xs.foldl max a := by
  induction xs generalizing a with
  | nil => exact le_refl a
  | cons x xs ih => exact le_trans (le_max_left a x) (ih (max a x))

theorem foldl_max_mem_le (xs : List Int) (a x : Int) (hx : x ∈ xs) : x ≤ xs.foldl max a := by
  induction xs generalizing a with
  | nil => cases hx
  | cons y ys ih =>
    rcases List.mem_cons.mp hx with rfl | h
    · exact le_trans (le_max_right a x) (foldl_max_init_le ys (max a x))
    · exact ih (max a y) h

theorem foldl_max_of_le (xs : List Int) (a : Int) (h : ∀ x ∈ xs, x ≤ a) :
    xs.foldl max a = a := by
  induction xs with
  | nil => rfl
  | cons x xs ih =>
    rw [List.foldl_cons, max_eq_left (h x (List.mem_cons_self _ _))]
    exact ih (fun y hy => h y (List.mem_cons_of_mem _ hy))

theorem mem_le_max_post_id (l : List Post) (p : Post) (hp : p ∈ l) :
    p.post_id ≤ max_post_id l := by
  cases l with
  | nil => cases hp
  | cons q qs =>
    simp only [max_post_id]
    rcases List.mem_cons.mp hp with rfl | h
    · exact foldl_max_init_le _ _
    · exact foldl_max_mem_le _ _ _ (List.mem_map_of_mem _ h)

theorem max_post_id_cons_of_ge (p : Post) (l : List Post)
    (h : ∀ q ∈ l, q.post_id ≤ p.post_id) : max_post_id (p :: l) = p.post_id := by
  simp only [max_post_id]
  exact foldl_max_of_le _ _ (fun x hx => by
    obtain ⟨q, hq, rfl⟩ := List.mem_map.mp hx
    exact h q hq)

theorem next_post_id_create (d : Document) (uid : Int) (un ct : String)
    (ip : Option String) (now : String) :
    next_post_id (create_post d uid un ct ip now) = next_post_id d + 1 := by
  unfold next_post_id
  rw [show (create_post d uid un ct ip now).posts
      = { post_id := next_post_id d, user_id := uid, username := un, content := ct,
          image_path := ip, likes := 0, liked_by := [], comments := [],
          created_at := now } :: d.posts from rfl]
  rw [max_post_id_cons_of_ge _ _ (fun q hq => by
    simp only
    have := mem_le_max_post_id d.posts q hq
    simp only [next_post_id]
    omega)]
  simp only [next_post_id]

theorem create_post_nodup (d : Document) (uid : Int) (un ct : String)
    (ip : Option String) (now : String) (h : (d.posts.map Post.post_id).Nodup) :
    ((create_post d uid un ct ip now).posts.map Post.post_id).Nodup := by
  rw [show (create_post d uid un ct ip now).posts
      = { post_id := next_post_id d, user_id := uid, username := un, content := ct,
          image_path := ip, likes := 0, liked_by := [], comments := [],
          created_at := now } :: d.posts from rfl]
  rw [List.map_cons, List.nodup_cons]
  refine ⟨?_, h⟩
  intro hmem
  obtain ⟨p, hp, hpe⟩ := List.mem_map.mp hmem
  have := mem_le_max_post_id d.posts p hp
  simp only [next_post_id] at hpe
  omega

theorem apply_creates_nodup (is : List PostInput) :
    ∀ d : Document, (d.posts.map Post.post_id).Nodup →
      ((apply_creates d is).posts.map Post.post_id).Nodup := by
  induction is with
  | nil => exact fun d h => h
  | cons i is ih =>
    intro d h
    exact ih _ (create_post_nodup d i.user_id i.username i.content i.image_path i.now h)

theorem allocated_ids_lb (is : List PostInput) :
    ∀ (d : Document) (x : Int), x ∈ allocated_ids d is → next_post_id d ≤ x := by
  induction is with
  | nil => intro d x hx; cases hx
  | cons i is ih =>
    intro d x hx
    rcases List.mem_cons.mp hx with rfl | h
    · exact le_refl _
    · have := ih _ x h
      rw [next_post_id_create] at this
      omega

theorem allocated_ids_pairwise (is : List PostInput) :
    ∀ d : Document, List.Pairwise (fun a b => a < b) (allocated_ids d is) := by
  induction is with
  | nil => intro d; constructor
  | cons i is ih =>
    intro d
    refine List.Pairwise.cons ?_ (ih _)
    intro x hx
    have := allocated_ids_lb is _ x hx
    rw [next_post_id_create] at this
    omega

/-! Concrete documents used to instantiate the theorems. -/

/-- A sample user for the concrete documents below. -/
def exUser : User := ⟨1, "u", "e", "b", "t"⟩

/-- A post with a zero like count but a nonempty liker list. -/
def zeroLikePost : Post := ⟨1, 1, "u", "c", none, 0, [5], [], "t"⟩

/-- A document holding `zeroLikePost`, on which the like-toggle round trip
fails because of the `max(0, likes - 1)` floor. -/
def zeroLikeDoc : Document := ⟨exUser, [zeroLikePost], [], []⟩

/-- A post with one liker and a matching like count. -/
def invPost1 : Post := ⟨1, 1, "u", "c", none, 1, [7], [], "t"⟩

/-- A post with no likers and a matching like count. -/
def invPost2 : Post := ⟨2, 1, "u", "d", none, 0, [], [], "t"⟩

/-- A well-formed two-post document (like counts match the liker lists). -/
def invDoc : Document := ⟨exUser, [invPost1, invPost2], [], []⟩

/-- A document with no posts. -/
def emptyDoc : Document := ⟨exUser, [], [], []⟩

/-- A document whose single post has id 3 (so the maximum post id is 3). -/
def maxThreeDoc : Document := ⟨exUser, [⟨3, 1, "u", "c", none, 0, [], [], "t"⟩], [], []⟩

/-- Two post-creation inputs, for exercising allocation sequences. -/
def twoInputs : List PostInput := [⟨1, "u", "a", none, "t1"⟩, ⟨1, "u", "b", none, "t2"⟩]

/-! Claim C1. -/

/-- C1 (counterexample): the claimed invariant `likes == size(liked_by)`
does not hold in every reachable document: the seeded defaults produced by
load on an absent or unreadable store violate it (the first sample post has
`likes = 42` and an empty liker list). -/
theorem c1_counterexample : ¬ likes_inv (default_document "2024-01-01T00:00:00") := by
  intro h
  exact absurd (h _ (List.mem_cons_self _ _)) (by decide)

/-- C1 (amended): every mutation preserves `likes == size(liked_by)` — if
every post of the document satisfies it, then it still holds after
`toggle_like`, after `create_post`, and after `add_comment` — but the seeded
default document itself violates it. -/
theorem c1_likes_inv_preserved (d : Document) (pid uid : Int) (un ct txt : String)
    (ip : Option String) (now : String) (h : likes_inv d) :
    likes_inv (toggle_like d pid uid) ∧
    likes_inv (create_post d uid un ct ip now) ∧
    likes_inv (add_comment d pid uid un txt now) := by
  refine ⟨?_, ?_, ?_⟩
  · intro p hp
    exact toggle_like_posts_inv pid uid d.posts h p hp
  · intro p hp
    rcases List.mem_cons.mp hp with rfl | hm
    · rfl
    · exact h p hm
  · intro p hp
    exact add_comment_posts_inv pid ⟨uid, un, txt, now⟩ d.posts h p hp

/-- C1 (witness): the preservation theorem applied to a concrete document
satisfying the invariant. -/
theorem c1_witness :
    likes_inv invDoc ∧
    (likes_inv (toggle_like invDoc 1 7) ∧
      likes_inv (create_post invDoc 7 "u" "x" none "t2") ∧
      likes_inv (add_comment invDoc 1 7 "u" "hi" "t2")) :=
  ⟨by unfold likes_inv invDoc; decide,
   c1_likes_inv_preserved invDoc 1 7 "u" "x" "hi" none "t2"
     (by unfold likes_inv invDoc; decide)⟩

/-! Claim C2. -/

/-- C2 (counterexample): applying `toggle_like` twice with the same post and
user does not always restore the prior like count: on a post with
`likes = 0` and liker list `[5]`, toggling user 5 twice yields `likes = 1`
(the decrement is floored at zero, the increment is not). -/
theorem c2_counterexample :
    (toggle_like (toggle_like zeroLikeDoc 1 5) 1 5).posts.map Post.likes
      ≠ zeroLikeDoc.posts.map Post.likes := by
  decide

/-- C2 (amended): on documents whose posts have duplicate-free liker lists
and nonnegative like counts that are positive whenever the toggling user is
already a liker (true of every state reachable from the defaults), a double
toggle restores every post: the like count and all other fields are exactly
restored, and the liker list is restored up to order (it is a permutation
of the original). -/
theorem c2_toggle_twice (d : Document) (pid uid : Int)
    (hnd : ∀ p ∈ d.posts, p.liked_by.Nodup)
    (hpos : ∀ p ∈ d.posts, uid ∈ p.liked_by → 1 ≤ p.likes)
    (hnn : ∀ p ∈ d.posts, 0 ≤ p.likes) :
    (toggle_like (toggle_like d pid uid) pid uid).current_user = d.current_user ∧
    (toggle_like (toggle_like d pid uid) pid uid).users = d.users ∧
    (toggle_like (toggle_like d pid uid) pid uid).notifications = d.notifications ∧
    List.Forall₂
      (fun q p => List.Perm q.liked_by p.liked_by ∧ { q with liked_by := p.liked_by } = p)
      (toggle_like (toggle_like d pid uid) pid uid).posts d.posts :=
  ⟨rfl, rfl, rfl, toggle_like_posts_twice pid uid d.posts hnd hpos hnn⟩

/-- C2 (witness): the double-toggle theorem applied to a concrete document,
toggling a user who already likes the post. -/
theorem c2_witness :
    List.Forall₂
      (fun q p => List.Perm q.liked_by p.liked_by ∧ { q with liked_by := p.liked_by } = p)
      (toggle_like (toggle_like invDoc 1 7) 1 7).posts invDoc.posts :=
  (c2_toggle_twice invDoc 1 7 (by decide) (by decide) (by decide)).2.2.2

/-! Claim C3. -/

/-- C3: `toggle_like` targets the post with the given id: when no post has
the id the document is unchanged; when a post has it (and earlier posts do
not), that post alone is replaced — the user id is erased from the liker
list and the count decremented flooring at zero if the user was a liker,
appended and the count incremented otherwise — and everything else in the
document is preserved. -/
theorem c3_toggle_like_correct (d : Document) (pid uid : Int) :
    ((∀ p ∈ d.posts, p.post_id ≠ pid) → toggle_like d pid uid = d) ∧
    (∀ l₁ p l₂, d.posts = l₁ ++ p :: l₂ → (∀ q ∈ l₁, q.post_id ≠ pid) → p.post_id = pid →
      (toggle_like d pid uid).current_user = d.current_user ∧
      (toggle_like d pid uid).users = d.users ∧
      (toggle_like d pid uid).notifications = d.notifications ∧
      (toggle_like d pid uid).posts
        = l₁ ++ (if uid ∈ p.liked_by then
            { p with liked_by := p.liked_by.erase uid, likes := max 0 (p.likes - 1) }
          else
            { p with liked_by := p.liked_by ++ [uid], likes := p.likes + 1 }) :: l₂) := by
  constructor
  · intro h
    unfold toggle_like
    rw [toggle_like_posts_none pid uid d.posts h]
  · intro l₁ p l₂ hsplit h₁ hp
    refine ⟨rfl, rfl, rfl, ?_⟩
    show toggle_like_posts pid uid d.posts = _
    rw [hsplit, toggle_like_posts_found pid uid l₁ p l₂ h₁ hp]
    rfl

/-- C3 (witness): the toggle theorem applied to a concrete document, both
for a missing post id (no-op) and for a present one. -/
theorem c3_witness :
    toggle_like invDoc 9 7 = invDoc ∧
    (toggle_like invDoc 2 7).posts
      = [invPost1] ++ (if (7 : Int) ∈ invPost2.liked_by then
          { invPost2 with liked_by := invPost2.liked_by.erase 7,
                          likes := max 0 (invPost2.likes - 1) }
        else
          { invPost2 with liked_by := invPost2.liked_by ++ [7],
                          likes := invPost2.likes + 1 }) :: [] :=
  ⟨(c3_toggle_like_correct invDoc 9 7).1 (by decide),
   ((c3_toggle_like_correct invDoc 2 7).2 [invPost1] invPost2 [] rfl (by decide) rfl).2.2.2⟩

/-! Claim C4. -/

/-- C4: the id allocated by `create_post` is the maximum existing post id
plus one (one when the document has no posts), hence strictly greater than
every post id in the document; consequently, starting from a document with
duplicate-free post ids, any sequence of `create_post` calls keeps the ids
duplicate-free and allocates ids that strictly increase in call order. -/
theorem c4_post_id_allocation (d : Document) :
    (d.posts = [] → next_post_id d = 1) ∧
    next_post_id d = max_post_id d.posts + 1 ∧
    (∀ p ∈ d.posts, p.post_id < next_post_id d) ∧
    (∀ is : List PostInput, (d.posts.map Post.post_id).Nodup →
      ((apply_creates d is).posts.map Post.post_id).Nodup) ∧
    (∀ is : List PostInput, List.Pairwise (fun a b => a < b) (allocated_ids d is)) := by
  refine ⟨?_, rfl, ?_, ?_, ?_⟩
  · intro h
    unfold next_post_id
    rw [h]
    rfl
  · intro p hp
    have := mem_le_max_post_id d.posts p hp
    unfold next_post_id
    omega
  · intro is h
    exact apply_creates_nodup is d h
  · intro is
    exact allocated_ids_pairwise is d

/-- C4 (witness): allocation starts at 1 on an empty document, and a
concrete two-call sequence keeps ids unique and strictly increasing. -/
theorem c4_witness :
    next_post_id emptyDoc = 1 ∧
    ((apply_creates invDoc twoInputs).posts.map Post.post_id).Nodup ∧
    List.Pairwise (fun a b => a < b) (allocated_ids invDoc twoInputs) :=
  ⟨(c4_post_id_allocation emptyDoc).1 rfl,
   (c4_post_id_allocation invDoc).2.2.2.1 twoInputs (by decide),
   (c4_post_id_allocation invDoc).2.2.2.2 twoInputs⟩

/-! Claim C5. -/

/-- C5: `create_post` inserts exactly one new post at the head of the post
list, carrying the given author id, username, content and optional image
path, with zero likes, an empty liker list, no comments, the supplied
timestamp, and the freshly allocated id; all existing posts and the rest of
the document are unchanged.  In particular, when the maximum existing post
id is 3 the new post has id 4 at position 0. -/
theorem c5_create_post (d : Document) (uid : Int) (un ct : String) (ip : Option String)
    (now : String) :
    (create_post d uid un ct ip now).posts
      = { post_id := next_post_id d, user_id := uid, username := un, content := ct,
          image_path := ip, likes := 0, liked_by := [], comments := [],
          created_at := now } :: d.posts ∧
    (create_post d uid un ct ip now).current_user = d.current_user ∧
    (create_post d uid un ct ip now).users = d.users ∧
    (create_post d uid un ct ip now).notifications = d.notifications ∧
    (max_post_id d.posts = 3 →
      (create_post d uid un ct ip now).posts.head?.map Post.post_id = some 4) := by
  refine ⟨rfl, rfl, rfl, rfl, ?_⟩
  intro h3
  simp [create_post, next_post_id, h3]

/-- C5 (witness): creating a post on a document whose maximum post id is 3
puts a post with id 4 at position 0. -/
theorem c5_witness :
    (create_post maxThreeDoc 1 "u" "new" none "t2").posts.head?.map Post.post_id = some 4 :=
  (c5_create_post maxThreeDoc 1 "u" "new" none "t2").2.2.2.2 (by decide)

/-! Claim C6. -/

/-- C6: round-trip persistence — saving any document (successful write) and
loading the store back returns a document equal to the saved one. -/
theorem c6_save_load_roundtrip (d : Document) (fs : Option (List Char)) (now : String) :
    (load_data now (save_data d fs WriteOutcome.success).file).fst = d := by
  show (load_data now (some (serialize_document d))).fst = d
  simp [load_data, parse_serialize_document d]

/-! Claim C7. -/

/-- C7: `add_comment` targets the post with the given id: when no post has
the id the document is unchanged; when a post has it (and earlier posts do
not), exactly one comment with the given user id, username, text and
timestamp is appended at the end of that post's comment list, all existing
comments and their order are kept, and everything else in the document is
preserved. -/
theorem c7_add_comment_correct (d : Document) (pid uid : Int) (un txt now : String) :
    ((∀ p ∈ d.posts, p.post_id ≠ pid) → add_comment d pid uid un txt now = d) ∧
    (∀ l₁ p l₂, d.posts = l₁ ++ p :: l₂ → (∀ q ∈ l₁, q.post_id ≠ pid) → p.post_id = pid →
      (add_comment d pid uid un txt now).current_user = d.current_user ∧
      (add_comment d pid uid un txt now).users = d.users ∧
      (add_comment d pid uid un txt now).notifications = d.notifications ∧
      (add_comment d pid uid un txt now).posts
        = l₁ ++ { p with comments := p.comments ++ [⟨uid, un, txt, now⟩] } :: l₂) := by
  constructor
  · intro h
    unfold add_comment
    rw [add_comment_posts_none pid ⟨uid, un, txt, now⟩ d.posts h]
  · intro l₁ p l₂ hsplit h₁ hp
    refine ⟨rfl, rfl, rfl, ?_⟩
    show add_comment_posts pid ⟨uid, un, txt, now⟩ d.posts = _
    rw [hsplit, add_comment_posts_found pid ⟨uid, un, txt, now⟩ l₁ p l₂ h₁ hp]

/-- C7 (witness): the comment theorem applied to a concrete document, both
for a missing post id (no-op) and for a present one. -/
theorem c7_witness :
    add_comment invDoc 9 7 "u" "hi" "t2" = invDoc ∧
    (add_comment invDoc 1 7 "u" "hi" "t2").posts
      = [] ++ { invPost1 with comments := invPost1.comments ++ [⟨7, "u", "hi", "t2"⟩] }
          :: [invPost2] :=
  ⟨(c7_add_comment_correct invDoc 9 7 "u" "hi" "t2").1 (by decide),
   ((c7_add_comment_correct invDoc 1 7 "u" "hi" "t2").2 [] invPost1 [invPost2] rfl
     (by decide) rfl).2.2.2⟩

/-! Claim C8. -/

/-- C8: when the backing file exists but does not parse, `load_data`
returns the default seeded document; the error is caught inside `load_data`
and never reaches the caller (the embedding is a total function). -/
theorem c8_load_recovers (now : String) (content : List Char)
    (h : parse_document content = none) :
    (load_data now (some content)).fst = default_document now := by
  simp [load_data, h, create_default_data]

/-- C8 (witness): loading a store holding the unparseable text `x` yields
the seeded default document. -/
theorem c8_witness : (load_data "t" (some ['x'])).fst = default_document "t" :=
  c8_load_recovers "t" ['x'] (by rfl)

/-! Claim C9. -/

/-- C9 (counterexample): a write failure during the dump does not leave the
prior on-disk state untouched: `open(DATA_FILE, 'w')` truncates the file
first, so failing after 0 written characters leaves an empty file in place
of the prior contents while the error dialog is shown. -/
theorem c9_counterexample :
    (save_data invDoc (some ['p']) (WriteOutcome.failAfter 0)).errorShown = true ∧
    (save_data invDoc (some ['p']) (WriteOutcome.failAfter 0)).file ≠ some ['p'] ∧
    (save_data invDoc (some ['p']) (WriteOutcome.failAfter 0)).file = some [] := by
  refine ⟨rfl, ?_, rfl⟩
  decide

/-- C9 (amended): a successful save fully replaces the store with the
serialization of the document and reports no error; a failure in `open`
leaves the prior state untouched and shows the error; but a failure during
the write leaves a prefix of the new serialization (the file was truncated
before writing), the prior contents being lost — there is no atomicity. -/
theorem c9_save_outcomes (d : Document) (fs : Option (List Char)) (k : Nat) :
    save_data d fs WriteOutcome.success = ⟨some (serialize_document d), false⟩ ∧
    save_data d fs WriteOutcome.failAtOpen = ⟨fs, true⟩ ∧
    save_data d fs (WriteOutcome.failAfter k) = ⟨some ((serialize_document d).take k), true⟩ ∧
    (serialize_document d).take k ++ (serialize_document d).drop k = serialize_document d :=
  ⟨rfl, rfl, rfl, List.take_append_drop k _⟩

/-! Claim C10. -/

/-- C10: when the backing file exists but does not parse, `load_data` does
not only return the default document — it also overwrites the backing file
with the serialization of the default document (via the `save_data` call
inside `create_default_data`), replacing the corrupt contents. -/
theorem c10_load_overwrites (now : String) (content : List Char)
    (h : parse_document content = none) :
    (load_data now (some content)).snd = some (serialize_document (default_document now)) := by
  simp [load_data, h, create_default_data]

/-- C10 (witness): loading a store holding the unparseable text `oops`
leaves the file holding the serialized default document. -/
theorem c10_witness :
    (load_data "t" (some ['o', 'o', 'p', 's'])).snd
      = some (serialize_document (default_document "t")) :=
  c10_load_overwrites "t" ['o', 'o', 'p', 's'] (by rfl)

end Blogify
